import Mathlib

/-!
Shallow embedding of the vcpkg command `x-analyze-package`
(`toolsrc/src/vcpkg/commands.analyzepackage.cpp`).

Pure string helpers model the `Strings::` utilities the command calls;
filesystem reads are modelled by carrying each file's optional contents
(`none` = read failure), the manifest parser by a three-way outcome
(missing file, parse error, parsed first-paragraph fields), and the
archive extractor by an outcome that either yields the unpacked package
tree or an extraction error, matching the collaborator interfaces the
command consumes.
-/

namespace AnalyzePackage

/-- Lowercased character list, for the ASCII case-insensitive helpers. -/
def lowerList (l : List Char) : List Char := l.map Char.toLower

/-- Modelled from the spec: Strings::case_insensitive_ascii_equals, the
NameNormalizer case-insensitive comparison (helper outside src/). -/
def ciEq (a b : String) : Bool := lowerList a.data == lowerList b.data

/-- Bool test that pat occurs as a contiguous run inside hay. -/
def containsSeg : List Char → List Char → Bool
  | [], pat => pat.isEmpty
  | c :: rest, pat => pat.isPrefixOf (c :: rest) || containsSeg rest pat

/-- Modelled from the spec: Strings::case_insensitive_ascii_contains
(helper outside src/). -/
def ciContains (hay pat : String) : Bool :=
  containsSeg (lowerList hay.data) (lowerList pat.data)

/-- Modelled from the spec: Strings::ends_with, a case-sensitive suffix
test (helper outside src/). -/
def sEnds (s sfx : String) : Bool := sfx.data.isSuffixOf s.data

/-- Modelled from the spec: Strings::replace_all (helper outside src/),
fuel-indexed: replace the leftmost occurrence of pat, continue scanning
immediately after the inserted replacement. -/
def replaceAllF (pat rep : List Char) : Nat → List Char → List Char
  | 0, s => s
  | _ + 1, [] => []
  | fuel + 1, c :: cs =>
    if pat.isPrefixOf (c :: cs) then
      rep ++ replaceAllF pat rep fuel ((c :: cs).drop pat.length)
    else
      c :: replaceAllF pat rep fuel cs

/-- Full replace_all over a string's characters. -/
def replaceAll (pat rep s : List Char) : List Char := replaceAllF pat rep s.length s

/-- escape_string from the source: replace CR, then LF, then double quote
with their two-character literal-escape forms. -/
def escape_string (s : String) : String :=
  String.mk (replaceAll ['"'] ['\\', '"']
    (replaceAll ['\n'] ['\\', 'n']
      (replaceAll ['\r'] ['\\', 'r'] s.data)))

/-- ECMAScript class \s restricted to ASCII input. -/
def isSpaceRe (c : Char) : Bool :=
  c == ' ' || c == '\t' || c == '\n' || c == '\r' || c == '\x0b' || c == '\x0c'

/-- ECMAScript word character, for the \b boundary. -/
def isWordChar (c : Char) : Bool := c.isAlphanum || c == '_'

/-- One attempted match of kw\(([^\s\)]+)\s at the head of s: the literal
keyword and an opening parenthesis, a nonempty capture of characters that
are neither whitespace nor a closing parenthesis, then one whitespace
character.  Returns the capture and the remainder after the match. -/
def tryMatch (kw : List Char) (s : List Char) : Option (List Char × List Char) :=
  if (kw ++ ['(']).isPrefixOf s then
    let rest := s.drop (kw.length + 1)
    let cap := rest.takeWhile (fun c => !isSpaceRe c && c != ')')
    if cap.isEmpty then none
    else
      match rest.drop cap.length with
      | [] => none
      | c :: rest2 => if isSpaceRe c then some (cap, rest2) else none
  else none

/-- Scan loop: walk the text left to right, tracking whether the previous
character was a word character (for \b), emitting non-overlapping matches
in textual order and resuming after each match, as std::sregex_iterator
does. -/
def scanAux (kw : List Char) : Nat → Bool → List Char → List (List Char)
  | 0, _, _ => []
  | _ + 1, _, [] => []
  | fuel + 1, prevWord, c :: cs =>
    if prevWord then scanAux kw fuel (isWordChar c) cs
    else
      match tryMatch kw (c :: cs) with
      | some (cap, rest) => cap :: scanAux kw fuel false rest
      | none => scanAux kw fuel (isWordChar c) cs

/-- All captures of \b<kw>\(([^\s\)]+)\s over the text, in textual order. -/
def scanCalls (kw s : List Char) : List (List Char) := scanAux kw (s.length + 1) false s

/-- Keyword of the library-declaration pattern. -/
def kwAddLibrary : List Char := "add_library".data

/-- Keyword of the request-this-name pattern used by the usage fallback. -/
def kwFindPackage : List Char := "find_package".data

/-- Ordered map (std::map) modelled as a key-sorted association list. -/
abbrev ConfigMap := List (String × String)

/-- Ordered map from discovered name to its accumulated target list. -/
abbrev TargetMap := List (String × List String)

/-- Lookup in the association-list map. -/
def mapFind {α : Type} (k : String) : List (String × α) → Option α
  | [] => none
  | (x, v) :: rest => if k = x then some v else mapFind k rest

/-- Insert-or-overwrite keeping keys sorted, as std::map does. -/
def mapSet {α : Type} (k : String) (v : α) : List (String × α) → List (String × α)
  | [] => [(k, v)]
  | (x, w) :: rest =>
    if k < x then (k, v) :: (x, w) :: rest
    else if k = x then (k, v) :: rest
    else (x, w) :: mapSet k v rest

/-- std::map operator[] (default-constructs an absent entry) followed by
push_back(v) on the entry's vector. -/
def mapPushBack (k : String) (v : String) (m : TargetMap) : TargetMap :=
  mapSet k ((mapFind k m).getD [] ++ [v]) m

/-- std::map emplace: inserts only when the key is absent. -/
def mapEmplace (k : String) (v : List String) (m : TargetMap) : TargetMap :=
  match mapFind k m with
  | some _ => m
  | none => mapSet k v m

/-- Keys strictly ascending, the std::map iteration-order invariant. -/
def sortedKeys {α : Type} (m : List (String × α)) : Prop :=
  List.Pairwise (fun a b => a.1 < b.1) m

/-- A file as the command sees it: its path in generic format (segments
joined by slashes) and its contents when readable (none = read failure). -/
structure PkgFile where
  path : List String
  contents : Option String
deriving DecidableEq

/-- path.generic_string(): segments joined by forward slashes. -/
def genericString (segs : List String) : String := String.intercalate "/" segs

/-- path.filename(): the last segment. -/
def pathFilename (segs : List String) : String := segs.getLast?.getD ""

/-- path.parent_path().filename(): the next-to-last segment. -/
def parentDirName (segs : List String) : String := segs.dropLast.getLast?.getD ""

/-- The gate from the source: the generic path contains "/share/"
case-insensitively and ends with ".cmake". -/
def isQualifying (p : List String) : Bool :=
  ciContains (genericString p) "/share/" && sEnds (genericString p) ".cmake"

/-- filename.substr(0, filename.size() - n). -/
def stripSuffixN (fn : String) (n : Nat) : String :=
  String.mk (fn.data.take (fn.data.length - n))

/-- Library-target captures contributed by one file: the add_library scan
of its contents, or nothing when the file is unreadable. -/
def fileCaps (f : PkgFile) : List (List Char) :=
  match f.contents with
  | some c => scanCalls kwAddLibrary c.data
  | none => []

/-- Body of the parse_cmake_targets loop for a single file. -/
def processFile (acc : ConfigMap × TargetMap) (f : PkgFile) : ConfigMap × TargetMap :=
  if isQualifying f.path then
    let find_package_name := parentDirName f.path
    let library_targets :=
      (fileCaps f).foldl (fun m cap => mapPushBack find_package_name (String.mk cap) m) acc.2
    let filename := pathFilename f.path
    let config_files :=
      if sEnds filename "Config.cmake" then
        let root := stripSuffixN filename 12
        if ciEq root find_package_name then mapSet find_package_name root acc.1 else acc.1
      else if sEnds filename "-config.cmake" then
        let root := stripSuffixN filename 13
        if ciEq root find_package_name then mapSet find_package_name root acc.1 else acc.1
      else acc.1
    (config_files, library_targets)
  else acc

/-- parse_cmake_targets from the source, over the package's file list. -/
def parse_cmake_targets (files : List PkgFile) : ConfigMap × TargetMap :=
  files.foldl processFile ([], [])

/-- Assembled per-package record, mirroring struct CMakeInfo. -/
structure CMakeInfo where
  port_name : String
  port_description : String
  usage : String
  config_files : ConfigMap
  library_targets : TargetMap
deriving DecidableEq

/-- Modelled from the spec: the ManifestReader collaborator outcome for a
package's CONTROL file — the file may be absent, fail to parse, or yield
the first structured record's fields (Paragraphs::get_paragraphs is not
under src/). -/
inductive ControlFile where
  | missing
  | parseError (msg : String)
  | parsed (first : List (String × String))
deriving DecidableEq

/-- An unpacked package tree: its root path, its CONTROL outcome, and the
recursive file listing of its share subtree. -/
structure Package where
  root : String
  control : ControlFile
  shareFiles : List PkgFile
deriving DecidableEq

/-- Outcome of get_cmake_information: a thrown std::runtime_error (caught
per package by the caller), a fatal Checks exit (terminates the whole
run), or the assembled record. -/
inductive PkgResult where
  | thrown (msg : String)
  | fatal (msg : String)
  | ok (info : CMakeInfo)
deriving DecidableEq

/-- Field lookup in the first CONTROL paragraph. -/
def lookupField : List (String × String) → String → Option String
  | [], _ => none
  | (x, v) :: rest, k => if x = k then some v else lookupField rest k

/-- Port-name resolution from the source: Source first, else Package,
else the port name is left as the empty string. -/
def portNameOfFields (first : List (String × String)) : String :=
  match lookupField first "Source" with
  | some v => v
  | none =>
    match lookupField first "Package" with
    | some v => v
    | none => ""

/-- Usage capture from the source: the first listed file named exactly
"usage"; escaped contents when readable, empty contribution otherwise. -/
def usageOf (files : List PkgFile) : String :=
  match files.find? (fun f => pathFilename f.path == "usage") with
  | some f =>
    match f.contents with
    | some c => escape_string c
    | none => ""
  | none => ""

/-- Fallback from the source: scan the usage text for find_package calls
and emplace each captured name with an empty target list. -/
def fallbackFromUsage (usage : String) (m : TargetMap) : TargetMap :=
  (scanCalls kwFindPackage usage.data).foldl (fun acc cap => mapEmplace (String.mk cap) [] acc) m

/-- get_cmake_information from the source.  A missing CONTROL throws a
runtime_error; a CONTROL parse failure calls Checks::exit_with_message,
which terminates the run (modelled from the spec: the Checks helpers,
outside src/, abort the whole run immediately with a descriptive
message). -/
def get_cmake_information (pkg : Package) : PkgResult :=
  match pkg.control with
  | ControlFile.missing => PkgResult.thrown (pkg.root ++ "/CONTROL does not exist.")
  | ControlFile.parseError m =>
    PkgResult.fatal ("Error parsing CONTROL file \x27" ++ pkg.root ++ "/CONTROL\x27: " ++ m)
  | ControlFile.parsed first =>
    let port_description :=
      match lookupField first "Description" with
      | some d => escape_string d
      | none => ""
    let usage := usageOf pkg.shareFiles
    let scanned := parse_cmake_targets pkg.shareFiles
    let library_targets :=
      if scanned.2.isEmpty then fallbackFromUsage usage scanned.2 else scanned.2
    PkgResult.ok (CMakeInfo.mk (portNameOfFields first) port_description usage
      scanned.1 library_targets)

/-- Display name for a key: the config-file binding when present, else
the key itself. -/
def displayName (cfg : ConfigMap) (k : String) : String := (mapFind k cfg).getD k

/-- std::sort on the target vector: ascending, a permutation of the
input, duplicates kept. -/
def sortTargets (l : List String) : List String := List.insertionSort (fun a b => a ≤ b) l

/-- The synthesized usage template from the source (the \r\n sequences
are two-character literal escapes in the emitted text). -/
def synthUsage (port pkg : String) (tgts : List String) : String :=
  "The package " ++ port ++ " provides CMake targets:\\r\\n\\r\\n    find_package(" ++ pkg ++
    " CONFIG REQUIRED)\\r\\n    target_link_libraries(main PRIVATE " ++
    String.intercalate " " tgts ++ ")\\r\\n"

/-- One serialized report line, as formatted by the source. -/
def mkLine (pkg : String) (tgts : List String) (port desc usage : String) : String :=
  "    \"" ++ pkg ++ "\": \x7b \"name\": \"" ++ pkg ++ "\", \"targets\": [\"" ++
    String.intercalate "\", \"" tgts ++ "\"], \"portName\": \"" ++ port ++
    "\", \"portDescription\": \"" ++ desc ++ "\", \"description\": \"" ++ usage ++ "\" \x7d"

/-- Serializer loop of generate_package_info_json: walks the target map
in key order threading the mutable usage string, sorting each target
list, synthesizing a usage note when the string is still empty, and
emitting one line per entry.  Returns the lines and the final usage. -/
def genLines (port desc : String) (cfg : ConfigMap) :
    List (String × List String) → String → List String × String
  | [], u => ([], u)
  | (k, tgts) :: rest, u =>
    let package_name := displayName cfg k
    let sorted := sortTargets tgts
    let u2 := if u = "" then synthUsage port package_name sorted else u
    let out := genLines port desc cfg rest u2
    (mkLine package_name sorted port desc u2 :: out.1, out.2)

/-- generate_package_info_json from the source: serialize one package's
record; the second component is the (possibly synthesized) usage string
the record holds afterwards. -/
def generate_package_info_json (info : CMakeInfo) : List String × String :=
  genLines info.port_name info.port_description info.config_files info.library_targets info.usage

/-- generate_cmake_info_json from the source: all packages' lines joined
with comma-newline inside an outer brace pair. -/
def generate_cmake_info_json (infos : List CMakeInfo) : String :=
  let package_strs := infos.foldl (fun acc info => acc ++ (generate_package_info_json info).1) []
  "\x7b\n" ++ String.intercalate ",\n" package_strs ++ "\n\x7d\n"

/-- Modelled from the spec: the ArchiveExtractor collaborator (not under
src/) either materializes the archive's file tree or fails with an
extraction error, which surfaces as a per-package recoverable error. -/
inductive ArchivePkg where
  | failed (msg : String)
  | extracted (pkg : Package)
deriving DecidableEq

/-- extract_and_get_info for one archive: extraction failure is a thrown
error; otherwise the extracted tree is analyzed. -/
def runOne : ArchivePkg → PkgResult
  | ArchivePkg.failed m => PkgResult.thrown m
  | ArchivePkg.extracted pkg => get_cmake_information pkg

/-- Outcome of the whole perform_and_exit loop: either the run aborted
with a fatal message (no report emitted) or it completed with the
assembled records and the failure notes printed along the way. -/
inductive RunResult where
  | aborted (infos : List CMakeInfo) (notes : List String) (msg : String)
  | completed (infos : List CMakeInfo) (notes : List String)
deriving DecidableEq

/-- The package loop from perform_and_exit: a thrown error is caught,
printed as a one-line failure note, and the loop continues; a fatal exit
terminates the run on the spot. -/
def processPackages : List ArchivePkg → RunResult
  | [] => RunResult.completed [] []
  | a :: rest =>
    match runOne a with
    | PkgResult.fatal m => RunResult.aborted [] [] m
    | PkgResult.thrown m =>
      (match processPackages rest with
       | RunResult.completed infos notes => RunResult.completed infos (("failed: " ++ m) :: notes)
       | RunResult.aborted infos notes fm => RunResult.aborted infos (("failed: " ++ m) :: notes) fm)
    | PkgResult.ok info =>
      (match processPackages rest with
       | RunResult.completed infos notes => RunResult.completed (info :: infos) notes
       | RunResult.aborted infos notes fm => RunResult.aborted (info :: infos) notes fm)

/-- A result that reached the ok constructor. -/
def isOkResult : PkgResult → Bool
  | PkgResult.ok _ => true
  | _ => false

/-- Concatenation of per-character expansions, used to characterize the
single-character replace_all calls of escape_string. -/
def expandBy (f : Char → List Char) : List Char → List Char
  | [] => []
  | c :: cs => f c ++ expandBy f cs

/-- Helper scan: every double quote is immediately preceded by a
backslash, given the character standing before the list. -/
def quotesOkAux (prev : Char) : List Char → Bool
  | [] => true
  | c :: rest => (c != '"' || prev == '\\') && quotesOkAux c rest

/-- No unescaped double quote: none at the start, and every later one is
immediately preceded by a backslash. -/
def quotesOk (l : List Char) : Bool := quotesOkAux 'A' l

/-- Adds one caught failure to a run outcome, as the loop's catch block
does by printing the failure note before continuing. -/
def addFailNote (m : String) : RunResult → RunResult
  | RunResult.completed infos notes => RunResult.completed infos (("failed: " ++ m) :: notes)
  | RunResult.aborted infos notes fm => RunResult.aborted infos (("failed: " ++ m) :: notes) fm

/-- Package used as the concrete fallback-discovery input: no .cmake
files, only a usage file naming Zlib (with trailing whitespace inside the
call) and OpenSSL (without it). -/
def pkgC7 : Package :=
  Package.mk "r7" (ControlFile.parsed [("Source", "zl")])
    [PkgFile.mk ["t", "share", "zl", "usage"]
      (some "find_package(Zlib REQUIRED) find_package(OpenSSL) ")]

/-- The record the command assembles for pkgC7. -/
def infoC7 : CMakeInfo :=
  CMakeInfo.mk "zl" "" "find_package(Zlib REQUIRED) find_package(OpenSSL) " [] [("Zlib", [])]

/-- Package with one qualifying config script declaring one target. -/
def pkgC8 : Package :=
  Package.mk "r8" (ControlFile.parsed [("Source", "zlib")])
    [PkgFile.mk ["t", "share", "zlib", "zlibConfig.cmake"]
      (some "add_library(ZLIB::ZLIB SHARED IMPORTED)")]

/-- The record the command assembles for pkgC8. -/
def infoC8 : CMakeInfo :=
  CMakeInfo.mk "zlib" "" "" [("zlib", "zlib")] [("zlib", ["ZLIB::ZLIB"])]

/-- A qualifying build-script file whose contents cannot be read but
whose filename still matches the Config.cmake convention. -/
def fileC9 : PkgFile := PkgFile.mk ["t", "pkg", "share", "Foo", "FooConfig.cmake"] none

end AnalyzePackage

namespace AnalyzePackage

/- String and list helper lemmas. -/

lemma replaceAllF_single (a : Char) (rep : List Char) :
    ∀ (fuel : Nat) (s : List Char), s.length ≤ fuel →
      replaceAllF [a] rep fuel s = expandBy (fun c => if c = a then rep else [c]) s := by
  intro fuel
  induction fuel with
  | zero =>
    intro s hs
    have hnil : s = [] := List.length_eq_zero.mp (Nat.le_zero.mp hs)
    subst hnil
    rfl
  | succ n ih =>
    intro s hs
    cases s with
    | nil => rfl
    | cons c cs =>
      have hlen : cs.length ≤ n := by
        simp only [List.length_cons] at hs
        omega
      by_cases hc : c = a
      · subst hc
        have hpre : ([c] : List Char).isPrefixOf (c :: cs) = true := by
          simp [List.isPrefixOf]
        simp [replaceAllF, hpre, expandBy, List.drop, ih cs hlen]
      · have hpre : ([a] : List Char).isPrefixOf (c :: cs) = false := by
          simp [List.isPrefixOf]
          intro h
          exact absurd h.symm hc
        simp [replaceAllF, hpre, expandBy, hc, ih cs hlen]

lemma replaceAll_single (a : Char) (rep : List Char) (s : List Char) :
    replaceAll [a] rep s = expandBy (fun c => if c = a then rep else [c]) s :=
  replaceAllF_single a rep s.length s (le_refl _)

lemma escape_string_data (s : String) :
    (escape_string s).data =
      expandBy (fun c => if c = '"' then ['\\', '"'] else [c])
        (expandBy (fun c => if c = '\n' then ['\\', 'n'] else [c])
          (expandBy (fun c => if c = '\r' then ['\\', 'r'] else [c]) s.data)) := by
  show (String.mk (replaceAll ['"'] ['\\', '"']
    (replaceAll ['\n'] ['\\', 'n'] (replaceAll ['\r'] ['\\', 'r'] s.data)))).data = _
  simp only [replaceAll_single]

lemma not_mem_expandBy (f : Char → List Char) (b : Char) :
    ∀ s : List Char, (∀ c ∈ s, b ∉ f c) → b ∉ expandBy f s := by
  intro s
  induction s with
  | nil =>
    intro _ h
    simp [expandBy] at h
  | cons c cs ih =>
    intro hf hmem
    rw [expandBy] at hmem
    rcases List.mem_append.mp hmem with h1 | h2
    · exact hf c (List.mem_cons_self _ _) h1
    · exact ih (fun d hd => hf d (List.mem_cons_of_mem _ hd)) h2

lemma quotesOkAux_expandQuote :
    ∀ (s : List Char) (prev : Char),
      quotesOkAux prev
        (expandBy (fun c => if c = '"' then ['\\', '"'] else [c]) s) = true := by
  intro s
  induction s with
  | nil => intro prev; rfl
  | cons c cs ih =>
    intro prev
    by_cases hc : c = '"'
    · subst hc
      simp [expandBy, quotesOkAux, ih]
    · simp [expandBy, quotesOkAux, hc, ih]

/-- C5: escape_string replaces each CR with backslash-r, each LF with
backslash-n and each double quote with backslash-quote, in that order, so
a CR LF pair becomes the four characters backslash-r-backslash-n and the
result has no raw CR, no raw LF, and no unescaped double quote (every
quote in the result is immediately preceded by a backslash). -/
theorem C5_escape_characters (s : String) :
    '\r' ∉ (escape_string s).data ∧ '\n' ∉ (escape_string s).data ∧
      quotesOk (escape_string s).data = true ∧
      escape_string (String.mk ['\r', '\n']) = "\\r\\n" := by
  have hdata := escape_string_data s
  have h1 : '\r' ∉ expandBy (fun c => if c = '\r' then ['\\', 'r'] else [c]) s.data := by
    apply not_mem_expandBy
    intro c _
    by_cases h : c = '\r'
    · simp [h]
    · simp [h]
      exact fun heq => h heq.symm
  have h2 : '\r' ∉ expandBy (fun c => if c = '\n' then ['\\', 'n'] else [c])
      (expandBy (fun c => if c = '\r' then ['\\', 'r'] else [c]) s.data) := by
    apply not_mem_expandBy
    intro c hc
    by_cases h : c = '\n'
    · simp [h]
    · simp [h]
      intro heq
      exact h1 (heq ▸ hc)
  have h3 : '\r' ∉ (escape_string s).data := by
    rw [hdata]
    apply not_mem_expandBy
    intro c hc
    by_cases h : c = '"'
    · simp [h]
    · simp [h]
      intro heq
      exact h2 (heq ▸ hc)
  have h4 : '\n' ∉ expandBy (fun c => if c = '\n' then ['\\', 'n'] else [c])
      (expandBy (fun c => if c = '\r' then ['\\', 'r'] else [c]) s.data) := by
    apply not_mem_expandBy
    intro c _
    by_cases h : c = '\n'
    · simp [h]
    · simp [h]
      exact fun heq => h heq.symm
  have h5 : '\n' ∉ (escape_string s).data := by
    rw [hdata]
    apply not_mem_expandBy
    intro c hc
    by_cases h : c = '"'
    · simp [h]
    · simp [h]
      intro heq
      exact h4 (heq ▸ hc)
  refine ⟨h3, h5, ?_, by decide⟩
  rw [hdata]
  exact quotesOkAux_expandQuote _ _

/- Ordered-map lemmas. -/

lemma mapFind_mapSet_self {α : Type} (k : String) (v : α) :
    ∀ m : List (String × α), mapFind k (mapSet k v m) = some v := by
  intro m
  induction m with
  | nil => simp [mapSet, mapFind]
  | cons p rest ih =>
    obtain ⟨x, w⟩ := p
    by_cases hlt : k < x
    · simp [mapSet, hlt, mapFind]
    · by_cases heq : k = x
      · simp [mapSet, hlt, heq, mapFind]
      · simp [mapSet, hlt, heq, mapFind, ih]

lemma mapSet_mapSet_self {α : Type} (k : String) (v1 v2 : α) :
    ∀ m : List (String × α), mapSet k v2 (mapSet k v1 m) = mapSet k v2 m := by
  intro m
  induction m with
  | nil => simp [mapSet, lt_irrefl]
  | cons p rest ih =>
    obtain ⟨x, w⟩ := p
    by_cases hlt : k < x
    · simp [mapSet, hlt, lt_irrefl]
    · by_cases heq : k = x
      · simp [mapSet, hlt, heq, lt_irrefl]
      · simp [mapSet, hlt, heq, ih]

lemma foldl_mapPushBack (k : String) :
    ∀ (ms : List (List Char)) (m : TargetMap), ms ≠ [] →
      ms.foldl (fun acc cap => mapPushBack k (String.mk cap) acc) m =
        mapSet k ((mapFind k m).getD [] ++ ms.map String.mk) m := by
  intro ms
  induction ms with
  | nil => intro m h; exact absurd rfl h
  | cons a rest ih =>
    intro m _
    cases hrest : rest with
    | nil =>
      simp [List.foldl, mapPushBack]
    | cons b more =>
      rw [← hrest]
      have hne : rest ≠ [] := by
        rw [hrest]
        exact List.cons_ne_nil _ _
      show rest.foldl (fun acc cap => mapPushBack k (String.mk cap) acc)
          (mapPushBack k (String.mk a) m) = _
      rw [ih (mapPushBack k (String.mk a) m) hne]
      rw [mapPushBack, mapFind_mapSet_self, mapSet_mapSet_self]
      simp

lemma mem_mapSet {α : Type} (k : String) (v : α) :
    ∀ (m : List (String × α)) (x : String × α), x ∈ mapSet k v m → x.1 = k ∨ x ∈ m := by
  intro m
  induction m with
  | nil =>
    intro x hx
    simp [mapSet] at hx
    left
    rw [hx]
  | cons p rest ih =>
    obtain ⟨y, w⟩ := p
    intro x hx
    by_cases hlt : k < y
    · simp [mapSet, hlt] at hx
      rcases hx with h | h | h
      · left; rw [h]
      · right; simp [h]
      · right; simp [h]
    · by_cases heq : k = y
      · simp [mapSet, hlt, heq] at hx
        rcases hx with h | h
        · left; rw [h]; exact heq.symm
        · right; simp [h]
      · simp [mapSet, hlt, heq] at hx
        rcases hx with h | h
        · right; simp [h]
        · rcases ih x h with h2 | h2
          · left; exact h2
          · right; simp [h2]

lemma sortedKeys_mapSet {α : Type} (k : String) (v : α) :
    ∀ m : List (String × α), sortedKeys m → sortedKeys (mapSet k v m) := by
  intro m
  induction m with
  | nil =>
    intro _
    simp [mapSet, sortedKeys]
  | cons p rest ih =>
    obtain ⟨x, w⟩ := p
    intro hs
    rw [sortedKeys, List.pairwise_cons] at hs
    obtain ⟨hhead, htail⟩ := hs
    by_cases hlt : k < x
    · rw [sortedKeys]
      simp only [mapSet, hlt, if_true]
      refine List.Pairwise.cons ?_ (List.Pairwise.cons hhead htail)
      intro b hb
      rcases List.mem_cons.mp hb with hb1 | hb1
      · rw [hb1]; exact hlt
      · exact lt_trans hlt (hhead b hb1)
    · by_cases heq : k = x
      · subst heq
        rw [sortedKeys, mapSet, if_neg hlt, if_pos rfl]
        exact List.Pairwise.cons hhead htail
      · have hgt : x < k := by
          rcases lt_trichotomy k x with h | h | h
          · exact absurd h hlt
          · exact absurd h heq
          · exact h
        rw [sortedKeys]
        simp only [mapSet, hlt, heq, if_false]
        refine List.Pairwise.cons ?_ (ih htail)
        intro b hb
        rcases mem_mapSet k v rest b hb with h | h
        · rw [h]; exact hgt
        · exact hhead b h

lemma sortedKeys_mapEmplace (k : String) (v : List String) (m : TargetMap)
    (h : sortedKeys m) : sortedKeys (mapEmplace k v m) := by
  rw [mapEmplace]
  cases mapFind k m with
  | some w => exact h
  | none => exact sortedKeys_mapSet k v m h

lemma sortedKeys_mapPushBack (k : String) (v : String) (m : TargetMap)
    (h : sortedKeys m) : sortedKeys (mapPushBack k v m) :=
  sortedKeys_mapSet _ _ _ h

lemma sortedKeys_processFile_targets (f : PkgFile) (acc : ConfigMap × TargetMap)
    (h : sortedKeys acc.2) : sortedKeys (processFile acc f).2 := by
  rw [processFile]
  by_cases hq : isQualifying f.path
  · simp only [hq, if_true]
    generalize (fileCaps f) = caps
    induction caps generalizing acc with
    | nil => exact h
    | cons a rest ih =>
      exact ih (acc.1, mapPushBack (parentDirName f.path) (String.mk a) acc.2)
        (sortedKeys_mapPushBack _ _ _ h)
  · simp only [hq, if_false]
    exact h

lemma sortedKeys_processFile_config (f : PkgFile) (acc : ConfigMap × TargetMap)
    (h : sortedKeys acc.1) : sortedKeys (processFile acc f).1 := by
  rw [processFile]
  by_cases hq : isQualifying f.path
  · simp only [hq, if_true]
    by_cases h1 : sEnds (pathFilename f.path) "Config.cmake"
    · simp only [h1, if_true]
      by_cases h2 : ciEq (stripSuffixN (pathFilename f.path) 12) (parentDirName f.path)
      · simp only [h2, if_true]
        exact sortedKeys_mapSet _ _ _ h
      · simp only [h2, if_false]
        exact h
    · simp only [h1, if_false]
      by_cases h2 : sEnds (pathFilename f.path) "-config.cmake"
      · simp only [h2, if_true]
        by_cases h3 : ciEq (stripSuffixN (pathFilename f.path) 13) (parentDirName f.path)
        · simp only [h3, if_true]
          exact sortedKeys_mapSet _ _ _ h
        · simp only [h3, if_false]
          exact h
      · simp only [h2, if_false]
        exact h
  · simp only [hq, if_false]
    exact h

lemma sortedKeys_parse (files : List PkgFile) :
    sortedKeys (parse_cmake_targets files).1 ∧ sortedKeys (parse_cmake_targets files).2 := by
  rw [parse_cmake_targets]
  have : ∀ acc : ConfigMap × TargetMap, sortedKeys acc.1 → sortedKeys acc.2 →
      sortedKeys (files.foldl processFile acc).1 ∧ sortedKeys (files.foldl processFile acc).2 := by
    induction files with
    | nil => intro acc h1 h2; exact ⟨h1, h2⟩
    | cons f rest ih =>
      intro acc h1 h2
      exact ih (processFile acc f) (sortedKeys_processFile_config f acc h1)
        (sortedKeys_processFile_targets f acc h2)
  exact this ([], []) (by simp [sortedKeys]) (by simp [sortedKeys])

lemma sortedKeys_fallbackFromUsage (usage : String) (m : TargetMap)
    (h : sortedKeys m) : sortedKeys (fallbackFromUsage usage m) := by
  rw [fallbackFromUsage]
  generalize (scanCalls kwFindPackage usage.data) = caps
  induction caps generalizing m with
  | nil => exact h
  | cons a rest ih => exact ih (mapEmplace (String.mk a) [] m) (sortedKeys_mapEmplace _ _ _ h)

/-- C3: a file contributes to the target map exactly when its path
contains the shared-metadata marker and has the .cmake extension; for a
qualifying file the key is the immediate parent directory name verbatim,
all pattern captures are appended to that key's list in textual order,
and a qualifying file with zero captures leaves the target map (hence the
entry set) unchanged. -/
theorem C3_target_scan (cfg : ConfigMap) (tgt : TargetMap) (f : PkgFile) :
    (isQualifying f.path = false → (processFile (cfg, tgt) f).2 = tgt) ∧
    (isQualifying f.path = true → fileCaps f = [] → (processFile (cfg, tgt) f).2 = tgt) ∧
    (isQualifying f.path = true → fileCaps f ≠ [] →
      (processFile (cfg, tgt) f).2 =
        mapSet (parentDirName f.path)
          ((mapFind (parentDirName f.path) tgt).getD [] ++ (fileCaps f).map String.mk) tgt) := by
  refine ⟨?_, ?_, ?_⟩
  · intro h
    simp [processFile, h]
  · intro hq hcaps
    simp [processFile, hq, hcaps]
  · intro hq hne
    simp only [processFile, hq, if_true]
    exact foldl_mapPushBack (parentDirName f.path) (fileCaps f) tgt hne

/-- C3 witness: a qualifying file with two library declarations yields
the parent-directory key with both captures appended in textual order. -/
theorem C3_target_scan_witness :
    (processFile (([] : ConfigMap), ([] : TargetMap))
        (PkgFile.mk ["t", "share", "Lib", "ex.cmake"]
          (some "add_library(alpha STATIC) add_library(beta STATIC)"))).2 =
      mapSet (parentDirName ["t", "share", "Lib", "ex.cmake"])
        ((mapFind (parentDirName ["t", "share", "Lib", "ex.cmake"]) ([] : TargetMap)).getD [] ++
          (fileCaps (PkgFile.mk ["t", "share", "Lib", "ex.cmake"]
            (some "add_library(alpha STATIC) add_library(beta STATIC)"))).map String.mk)
        ([] : TargetMap) :=
  (C3_target_scan [] []
      (PkgFile.mk ["t", "share", "Lib", "ex.cmake"]
        (some "add_library(alpha STATIC) add_library(beta STATIC)"))).2.2
    (by decide) (by decide)

/-- C4: for a qualifying file a config binding is recorded exactly when
the filename ends in Config.cmake (checked first) or -config.cmake and
the stripped root equals the parent-directory name case-insensitively;
the key is the directory-derived name, the value the stripped root in
original case, a later binding overwrites the earlier one for the same
key, and keys stay strictly sorted so at most one binding per key
exists. -/
theorem C4_config_binding (cfg : ConfigMap) (tgt : TargetMap) (f : PkgFile)
    (hq : isQualifying f.path = true) :
    (sEnds (pathFilename f.path) "Config.cmake" = true →
      (ciEq (stripSuffixN (pathFilename f.path) 12) (parentDirName f.path) = true →
        (processFile (cfg, tgt) f).1 =
          mapSet (parentDirName f.path) (stripSuffixN (pathFilename f.path) 12) cfg) ∧
      (ciEq (stripSuffixN (pathFilename f.path) 12) (parentDirName f.path) = false →
        (processFile (cfg, tgt) f).1 = cfg)) ∧
    (sEnds (pathFilename f.path) "Config.cmake" = false →
      sEnds (pathFilename f.path) "-config.cmake" = true →
      (ciEq (stripSuffixN (pathFilename f.path) 13) (parentDirName f.path) = true →
        (processFile (cfg, tgt) f).1 =
          mapSet (parentDirName f.path) (stripSuffixN (pathFilename f.path) 13) cfg) ∧
      (ciEq (stripSuffixN (pathFilename f.path) 13) (parentDirName f.path) = false →
        (processFile (cfg, tgt) f).1 = cfg)) ∧
    (sEnds (pathFilename f.path) "Config.cmake" = false →
      sEnds (pathFilename f.path) "-config.cmake" = false →
      (processFile (cfg, tgt) f).1 = cfg) ∧
    (∀ v : String,
      mapFind (parentDirName f.path) (mapSet (parentDirName f.path) v cfg) = some v) ∧
    (sortedKeys cfg → sortedKeys (processFile (cfg, tgt) f).1) := by
  refine ⟨?_, ?_, ?_, ?_, ?_⟩
  · intro h1
    constructor
    · intro h2
      simp [processFile, hq, h1, h2]
    · intro h2
      simp [processFile, hq, h1, h2]
  · intro h1 h2
    constructor
    · intro h3
      simp [processFile, hq, h1, h2, h3]
    · intro h3
      simp [processFile, hq, h1, h2, h3]
  · intro h1 h2
    simp [processFile, hq, h1, h2]
  · intro v
    exact mapFind_mapSet_self _ _ _
  · intro hs
    exact sortedKeys_processFile_config f (cfg, tgt) hs

/-- C4 witness: the kebab convention binds alpha-config.cmake in
directory Alpha, with the lower-case root as the stored display value. -/
theorem C4_config_binding_witness :
    (processFile (([] : ConfigMap), ([] : TargetMap))
        (PkgFile.mk ["t", "share", "Alpha", "alpha-config.cmake"] none)).1 =
      mapSet (parentDirName ["t", "share", "Alpha", "alpha-config.cmake"])
        (stripSuffixN (pathFilename ["t", "share", "Alpha", "alpha-config.cmake"]) 13)
        ([] : ConfigMap) :=
  ((C4_config_binding [] [] (PkgFile.mk ["t", "share", "Alpha", "alpha-config.cmake"] none)
      (by decide)).2.1 (by decide) (by decide)).1 (by decide)

/-- C9 counterexample: an unreadable qualifying file named
FooConfig.cmake still records a config-file binding, so the resulting
maps are not exactly as if the file had been absent. -/
theorem C9_counterexample :
    parse_cmake_targets [fileC9] = ([("Foo", "Foo")], []) ∧
      parse_cmake_targets [] = ([], []) ∧
      parse_cmake_targets [fileC9] ≠ parse_cmake_targets [] := by
  refine ⟨by decide, by decide, by decide⟩

/-- C9 amended: an unreadable build-script file contributes no targets
(the target map is exactly as if the file were absent) and an unreadable
usage file contributes no usage text, and neither condition is an error —
the package still assembles — but the unreadable file's name still
participates in config-file binding, so the config map may differ from
the absent-file case. -/
theorem C9_silent_skip :
    (∀ (cfg : ConfigMap) (tgt : TargetMap) (f : PkgFile), f.contents = none →
      (processFile (cfg, tgt) f).2 = tgt) ∧
    (∀ (files : List PkgFile) (f : PkgFile),
      files.find? (fun g => pathFilename g.path == "usage") = some f →
      f.contents = none → usageOf files = "") ∧
    (∀ (pkg : Package) (first : List (String × String)),
      pkg.control = ControlFile.parsed first →
      isOkResult (get_cmake_information pkg) = true) := by
  refine ⟨?_, ?_, ?_⟩
  · intro cfg tgt f hc
    by_cases hq : isQualifying f.path
    · simp [processFile, hq, fileCaps, hc]
    · simp [processFile, hq]
  · intro files f hfind hc
    rw [usageOf, hfind]
    simp [hc]
  · intro pkg first hc
    simp [get_cmake_information, hc, isOkResult]

/-- C1 counterexample: a processed package whose record has zero
(display name, target list) entries yields zero serialized lines — not
the claimed single underscore-prefixed fallback line. -/
theorem C1_counterexample :
    (generate_package_info_json (CMakeInfo.mk "foo" "" "" [] [])).1 = [] ∧
      (generate_package_info_json (CMakeInfo.mk "foo" "" "" [] [])).1.length ≠ 1 := by
  exact ⟨rfl, by decide⟩

/-- C1 amended: the serializer emits zero lines for a package whose
record has zero entries — there is no fallback line — so a report holding
only such a package is the empty object. -/
theorem C1_zero_entries (info : CMakeInfo) (h : info.library_targets = []) :
    (generate_package_info_json info).1 = [] ∧
      generate_cmake_info_json [info] = "\x7b\n\n\x7d\n" := by
  have h1 : (generate_package_info_json info).1 = [] := by
    rw [generate_package_info_json, h, genLines]
  refine ⟨h1, ?_⟩
  rw [generate_cmake_info_json]
  simp only [List.foldl, List.nil_append, h1]
  rfl

/-- C1 witness: the amended statement at a concrete zero-entry record. -/
theorem C1_zero_entries_witness :
    (generate_package_info_json (CMakeInfo.mk "bar" "" "" [] [])).1 = [] ∧
      generate_cmake_info_json [CMakeInfo.mk "bar" "" "" [] []] = "\x7b\n\n\x7d\n" :=
  C1_zero_entries (CMakeInfo.mk "bar" "" "" [] []) rfl

/-- C2 counterexample: a package whose CONTROL file fails to parse
aborts the whole run with the fatal message — the following package,
which on its own assembles fine, is never processed — so an unparsable
manifest is not per-package recoverable. -/
theorem C2_counterexample :
    processPackages
        [ArchivePkg.extracted (Package.mk "p1" (ControlFile.parseError "expected field") []),
         ArchivePkg.extracted (Package.mk "p2" (ControlFile.parsed [("Source", "good")]) [])] =
      RunResult.aborted [] [] "Error parsing CONTROL file \x27p1/CONTROL\x27: expected field" ∧
      processPackages
          [ArchivePkg.extracted (Package.mk "p2" (ControlFile.parsed [("Source", "good")]) [])] =
        RunResult.completed [CMakeInfo.mk "good" "" "" [] []] [] := by
  exact ⟨by decide, by decide⟩

/-- C2 amended: a failed extraction and a missing CONTROL file are
per-package recoverable — the package is skipped, a one-line failure note
is recorded, and processing continues with the remaining packages — but
an unparsable CONTROL file is not treated like a missing one: it
terminates the whole run through a fatal exit. -/
theorem C2_per_package_errors (a : ArchivePkg) (rest : List ArchivePkg) :
    (∀ m, a = ArchivePkg.failed m →
      processPackages (a :: rest) = addFailNote m (processPackages rest)) ∧
    (∀ pkg, a = ArchivePkg.extracted pkg → pkg.control = ControlFile.missing →
      processPackages (a :: rest) =
        addFailNote (pkg.root ++ "/CONTROL does not exist.") (processPackages rest)) ∧
    (∀ pkg m, a = ArchivePkg.extracted pkg → pkg.control = ControlFile.parseError m →
      processPackages (a :: rest) =
        RunResult.aborted [] []
          ("Error parsing CONTROL file \x27" ++ pkg.root ++ "/CONTROL\x27: " ++ m)) := by
  refine ⟨?_, ?_, ?_⟩
  · intro m ha
    subst ha
    cases hr : processPackages rest with
    | aborted infos notes fm => simp [processPackages, runOne, hr, addFailNote]
    | completed infos notes => simp [processPackages, runOne, hr, addFailNote]
  · intro pkg ha hc
    subst ha
    cases hr : processPackages rest with
    | aborted infos notes fm =>
      simp [processPackages, runOne, get_cmake_information, hc, hr, addFailNote]
    | completed infos notes =>
      simp [processPackages, runOne, get_cmake_information, hc, hr, addFailNote]
  · intro pkg m ha hc
    subst ha
    simp [processPackages, runOne, get_cmake_information, hc]

/-- C2 witness: a missing CONTROL file is caught, noted, and the loop
goes on. -/
theorem C2_per_package_errors_witness :
    processPackages [ArchivePkg.extracted (Package.mk "w" ControlFile.missing [])] =
      addFailNote "w/CONTROL does not exist." (processPackages []) :=
  (C2_per_package_errors _ []).2.1 (Package.mk "w" ControlFile.missing []) rfl rfl

/-- C7 counterexample: with an empty target map and usage text holding
find_package(Zlib REQUIRED) and find_package(OpenSSL), the assembled
record discovers only Zlib — OpenSSL is not registered, contradicting the
claimed two discovered names. -/
theorem C7_counterexample :
    get_cmake_information pkgC7 = PkgResult.ok infoC7 ∧
      mapFind "OpenSSL" infoC7.library_targets = none := by
  exact ⟨by decide, by decide⟩

/-- C7 amended: the usage fallback runs exactly when the scanned target
map is empty, each captured name is emplaced with an empty target list
and a duplicate mention is a no-op; the pattern, however, requires a
whitespace character after the captured name, so find_package(OpenSSL)
— with no space before the closing parenthesis — contributes nothing and
the two-call example yields only the name Zlib. -/
theorem C7_usage_fallback (pkg : Package) (first : List (String × String))
    (hc : pkg.control = ControlFile.parsed first) :
    (∀ info, get_cmake_information pkg = PkgResult.ok info →
      ((parse_cmake_targets pkg.shareFiles).2 = [] →
        info.library_targets = fallbackFromUsage (usageOf pkg.shareFiles) []) ∧
      ((parse_cmake_targets pkg.shareFiles).2 ≠ [] →
        info.library_targets = (parse_cmake_targets pkg.shareFiles).2)) ∧
    (∀ (k : String) (w : List String) (m : TargetMap),
      mapFind k m = some w → mapEmplace k [] m = m) ∧
    scanCalls kwFindPackage "find_package(Zlib REQUIRED) find_package(OpenSSL) ".data =
      ["Zlib".data] := by
  refine ⟨?_, ?_, by decide⟩
  · intro info hok
    simp only [get_cmake_information, hc] at hok
    rw [PkgResult.ok.injEq] at hok
    subst hok
    constructor
    · intro hp
      simp only [hp, List.isEmpty_nil, if_true]
    · intro hp
      have hne : (parse_cmake_targets pkg.shareFiles).2.isEmpty = false := by
        cases hv : (parse_cmake_targets pkg.shareFiles).2 with
        | nil => exact absurd hv hp
        | cons x xs => rfl
      simp only [hne, Bool.false_eq_true, if_false]
  · intro k w m hfind
    rw [mapEmplace, hfind]

/-- C7 witness: the fallback equality and the emplace no-op at concrete
inputs. -/
theorem C7_usage_fallback_witness :
    infoC7.library_targets = fallbackFromUsage (usageOf pkgC7.shareFiles) [] ∧
      mapEmplace "Zlib" [] [("Zlib", [])] = [("Zlib", [])] :=
  ⟨((C7_usage_fallback pkgC7 [("Source", "zl")] rfl).1 infoC7 (by decide)).1 (by decide),
   (C7_usage_fallback pkgC7 [("Source", "zl")] rfl).2.1 "Zlib" [] [("Zlib", [])] (by decide)⟩

lemma synthUsage_ne_empty (port pkg : String) (tgts : List String) :
    synthUsage port pkg tgts ≠ "" := by
  intro h
  have h2 := congrArg String.length h
  rw [synthUsage] at h2
  simp only [String.length_append] at h2
  have hlit : (0 : Nat) < "The package ".length := by decide
  have hempty : ("" : String).length = 0 := by decide
  omega

lemma genLines_keeps_usage (port desc : String) (cfg : ConfigMap) :
    ∀ (entries : List (String × List String)) (u : String), u ≠ "" →
      (genLines port desc cfg entries u).2 = u := by
  intro entries
  induction entries with
  | nil => intro u _; rfl
  | cons e rest ih =>
    obtain ⟨k, tgts⟩ := e
    intro u hu
    simp only [genLines, if_neg hu]
    exact ih u hu

lemma genLines_length (port desc : String) (cfg : ConfigMap) :
    ∀ (entries : List (String × List String)) (u : String),
      ((genLines port desc cfg entries u).1).length = entries.length := by
  intro entries
  induction entries with
  | nil => intro u; rfl
  | cons e rest ih =>
    obtain ⟨k, tgts⟩ := e
    intro u
    simp only [genLines, List.length_cons]
    rw [ih]

lemma genLines_mem_shape (port desc : String) (cfg : ConfigMap) :
    ∀ (entries : List (String × List String)) (u : String) (l : String),
      l ∈ (genLines port desc cfg entries u).1 →
      ∃ pkg tgts u2, l = mkLine pkg tgts port desc u2 := by
  intro entries
  induction entries with
  | nil =>
    intro u l hl
    simp [genLines] at hl
  | cons e rest ih =>
    obtain ⟨k, tgts⟩ := e
    intro u l hl
    simp only [genLines] at hl
    rcases List.mem_cons.mp hl with h | h
    · exact ⟨_, _, _, h⟩
    · exact ih _ l h

lemma mkLine_portName_empty (pkg : String) (tgts : List String) (desc usage : String) :
    ("\"portName\": \"\"" : String).data <:+: (mkLine pkg tgts "" desc usage).data := by
  have hmid : ("\"portName\": \"\"" : String).data <:+:
      (("\"], \"portName\": \"" : String).data ++
        ("\", \"portDescription\": \"" : String).data) := by decide
  refine hmid.trans ?_
  rw [mkLine]
  simp only [String.data_append]
  refine ⟨"    \"".data ++ pkg.data ++ "\": \x7b \"name\": \"".data ++ pkg.data ++
      "\", \"targets\": [\"".data ++ (String.intercalate "\", \"" tgts).data,
    desc.data ++ "\", \"description\": \"".data ++ usage.data ++ "\" \x7d".data, ?_⟩
  simp only [List.append_assoc, List.append_nil, List.nil_append]

/-- C6: while serializing a package, a usage string is synthesized at
the first entry exactly when the usage string is still empty — built from
the port name, that entry's display name and its space-joined sorted
target list — and is then the usage value every line of the package
shares; a package with zero entries synthesizes nothing and keeps the
captured usage value. -/
theorem C6_usage_synthesis (port desc : String) (cfg : ConfigMap) (k : String)
    (tgts : List String) (rest : List (String × List String)) (u : String) :
    genLines port desc cfg [] u = ([], u) ∧
    genLines port desc cfg ((k, tgts) :: rest) "" =
      genLines port desc cfg ((k, tgts) :: rest)
        (synthUsage port (displayName cfg k) (sortTargets tgts)) ∧
    (u ≠ "" → (genLines port desc cfg ((k, tgts) :: rest) u).2 = u) := by
  refine ⟨rfl, ?_, fun hu => genLines_keeps_usage port desc cfg _ u hu⟩
  conv_lhs => rw [genLines]
  conv_rhs => rw [genLines]
  simp only [if_pos rfl, if_true,
    if_neg (synthUsage_ne_empty port (displayName cfg k) (sortTargets tgts))]

/-- C6 witness: synthesis at a concrete single-entry package, and the
no-synthesis case for a non-empty captured usage string. -/
theorem C6_usage_synthesis_witness :
    genLines "p" "" [] [("K", ["b", "a"])] "" =
      genLines "p" "" [] [("K", ["b", "a"])]
        (synthUsage "p" (displayName [] "K") (sortTargets ["b", "a"])) ∧
      (genLines "p" "" [] [("K", ["b", "a"])] "x").2 = "x" :=
  ⟨(C6_usage_synthesis "p" "" [] "K" ["b", "a"] [] "x").2.1,
   (C6_usage_synthesis "p" "" [] "K" ["b", "a"] [] "x").2.2 (by decide)⟩

/-- C8: an assembled record's target map has strictly ascending keys, so
serialization (which walks the list in order, one line per entry) follows
ascending lexicographic key order and not discovery order; each target
list is sorted before serialization and that sort is a permutation of the
scanned matches, so duplicates survive. -/
theorem C8_sorted_serialization (pkg : Package) (info : CMakeInfo)
    (h : get_cmake_information pkg = PkgResult.ok info) :
    sortedKeys info.library_targets ∧
    (∀ t : List String,
      List.Sorted (fun a b : String => a ≤ b) (sortTargets t) ∧ List.Perm (sortTargets t) t) ∧
    (∀ (desc u : String) (cfg : ConfigMap),
      ((genLines info.port_name desc cfg info.library_targets u).1).length =
        info.library_targets.length) := by
  refine ⟨?_, ?_, ?_⟩
  · cases hc : pkg.control with
    | missing => simp [get_cmake_information, hc] at h
    | parseError m => simp [get_cmake_information, hc] at h
    | parsed first =>
      simp only [get_cmake_information, hc] at h
      rw [PkgResult.ok.injEq] at h
      subst h
      show sortedKeys (if (parse_cmake_targets pkg.shareFiles).2.isEmpty then
        fallbackFromUsage (usageOf pkg.shareFiles) (parse_cmake_targets pkg.shareFiles).2
        else (parse_cmake_targets pkg.shareFiles).2)
      by_cases hp : (parse_cmake_targets pkg.shareFiles).2.isEmpty = true
      · rw [if_pos hp]
        exact sortedKeys_fallbackFromUsage _ _ (sortedKeys_parse pkg.shareFiles).2
      · rw [if_neg hp]
        exact (sortedKeys_parse pkg.shareFiles).2
  · intro t
    exact ⟨List.sorted_insertionSort _ t, List.perm_insertionSort _ t⟩
  · intro desc u cfg
    exact genLines_length info.port_name desc cfg info.library_targets u

/-- C8 witness: the key-order invariant and per-entry line count at a
concrete assembled record. -/
theorem C8_sorted_serialization_witness :
    sortedKeys infoC8.library_targets ∧
      ((genLines infoC8.port_name "" infoC8.config_files infoC8.library_targets "").1).length =
        infoC8.library_targets.length :=
  ⟨(C8_sorted_serialization pkgC8 infoC8 (by decide)).1,
   (C8_sorted_serialization pkgC8 infoC8 (by decide)).2.2 "" "" infoC8.config_files⟩

/-- C10: when the first CONTROL record has neither Source nor Package the
port name resolves to the empty string, the package still assembles
without error, the record's port name is exactly the resolved one (with
Source taking precedence when present), and every serialized line of a
record with empty port name carries an empty portName field. -/
theorem C10_port_name_defaults :
    (∀ first : List (String × String),
      lookupField first "Source" = none → lookupField first "Package" = none →
      portNameOfFields first = "") ∧
    (∀ (first : List (String × String)) (v : String),
      lookupField first "Source" = some v → portNameOfFields first = v) ∧
    (∀ (pkg : Package) (first : List (String × String)),
      pkg.control = ControlFile.parsed first →
      isOkResult (get_cmake_information pkg) = true ∧
      ∀ info, get_cmake_information pkg = PkgResult.ok info →
        info.port_name = portNameOfFields first) ∧
    (∀ info : CMakeInfo, info.port_name = "" →
      ∀ l ∈ (generate_package_info_json info).1,
        ("\"portName\": \"\"" : String).data <:+: l.data) := by
  refine ⟨?_, ?_, ?_, ?_⟩
  · intro first h1 h2
    rw [portNameOfFields, h1, h2]
  · intro first v h1
    rw [portNameOfFields, h1]
  · intro pkg first hc
    constructor
    · simp [get_cmake_information, hc, isOkResult]
    · intro info hok
      simp only [get_cmake_information, hc] at hok
      rw [PkgResult.ok.injEq] at hok
      subst hok
      rfl
  · intro info hport l hl
    obtain ⟨pkg2, tgts2, u2, hshape⟩ :=
      genLines_mem_shape info.port_name info.port_description info.config_files
        info.library_targets info.usage l hl
    rw [hport] at hshape
    rw [hshape]
    exact mkLine_portName_empty pkg2 tgts2 info.port_description u2

/-- C10 witness: a first record with neither field yields the empty port
name and the package still assembles. -/
theorem C10_port_name_defaults_witness :
    portNameOfFields [("Maintainer", "m")] = "" ∧
      isOkResult (get_cmake_information
        (Package.mk "w10" (ControlFile.parsed [("Maintainer", "m")]) [])) = true :=
  ⟨C10_port_name_defaults.1 [("Maintainer", "m")] rfl rfl,
   (C10_port_name_defaults.2.2.1 (Package.mk "w10" (ControlFile.parsed [("Maintainer", "m")]) [])
     [("Maintainer", "m")] rfl).1⟩

/-- C9 witness: processing the unreadable config file leaves the target
map unchanged, and a package holding only that file still assembles. -/
theorem C9_silent_skip_witness :
    (processFile (([] : ConfigMap), ([] : TargetMap)) fileC9).2 = ([] : TargetMap) ∧
      isOkResult (get_cmake_information
        (Package.mk "r9" (ControlFile.parsed [("Source", "foo")]) [fileC9])) = true :=
  ⟨(C9_silent_skip).1 [] [] fileC9 rfl,
   (C9_silent_skip).2.2 (Package.mk "r9" (ControlFile.parsed [("Source", "foo")]) [fileC9])
     [("Source", "foo")] rfl⟩

end AnalyzePackage
